import Mathlib

/-!
Verification of the interactive terminal prompt engine of `boru`
(`src/bin/cli.js`): the `multiselect` and `confirm` prompts.

The JavaScript source is shallowly embedded as follows.

* An option record `{ key, name, desc }` becomes the structure `Opt`
  (the source calls it an "Option"; that name is taken in Lean).
* The mutable locals `cursor` (a JS number, here `Int`, since `Up` on an
  empty option list yields `options.length - 1 = -1`) and the JS `Set`
  `selected` become the structure `SelState`.  A JS `Set` iterates in
  insertion order and `add` appends only when the element is absent, so
  `selected` is modelled as its insertion-ordered list of distinct
  elements.
* Terminal effects are modelled by `Sys`: the ordered list of chunks
  written to stdout, the raw-mode flag set by `stdin.setRawMode`, and
  whether the `data` listener is attached.
* Each firing of the `data` handler with one key chunk is one step
  (`msStep` / `cfStep`); a whole interaction over a list of chunks is
  `msLoop` / `cfLoop`.  `process.exit(1)` becomes the outcome
  `exited 1`; the `TypeError` thrown by `options[i].key` when `i` is out
  of range becomes the outcome `crashed`.
-/

namespace Boru

/-- An option record handed to `multiselect`: `{ key, name, desc }`. -/
structure Opt where
  key : String
  name : String
  desc : String
deriving DecidableEq

instance : Inhabited Opt := ⟨⟨"", "", ""⟩⟩

/-- The live state of the multi-select prompt: `let cursor = 0;` and
`const selected = new Set([0]);`, the set as its insertion-ordered list. -/
structure SelState where
  cursor : Int
  selected : List Int
deriving DecidableEq

/-- `if (selected.has(cursor)) selected.delete(cursor); else selected.add(cursor);`
on an insertion-ordered JS `Set`: `delete` removes the element, `add`
appends it at the end (it is absent in that branch). -/
def setToggle (s : List Int) (x : Int) : List Int :=
  if x ∈ s then s.filter (fun y => y ≠ x) else s ++ [x]

/-- The `Up` arm: `cursor = cursor > 0 ? cursor - 1 : options.length - 1;`. -/
def upCursor (n : Nat) (c : Int) : Int :=
  if 0 < c then c - 1 else (n : Int) - 1

/-- The `Down` arm: `cursor = cursor < options.length - 1 ? cursor + 1 : 0;`. -/
def downCursor (n : Nat) (c : Int) : Int :=
  if c < (n : Int) - 1 then c + 1 else 0

/-- The pure part of one `handleKey` firing in `multiselect`: the update
of `cursor`/`selected` for the `Up`, `Down` and `Space` keys; every other
key (apart from `Interrupt` and `Enter`, handled in `msStep`) leaves the
state unchanged. -/
def pureStep (options : List Opt) (st : SelState) (k : String) : SelState :=
  if k = "\x1b[A" then { st with cursor := upCursor options.length st.cursor }
  else if k = "\x1b[B" then { st with cursor := downCursor options.length st.cursor }
  else if k = " " then { st with selected := setToggle st.selected st.cursor }
  else st

/-- Folding `pureStep` over a chunk sequence. -/
def pureSteps (options : List Opt) (st : SelState) (ks : List String) : SelState :=
  ks.foldl (pureStep options) st

/-- `stdout.moveCursor(0, -n)`: for `n > 0` node writes the cursor-up
escape; for `n = 0` nothing is written. -/
def moveCursorUp (n : Nat) : List String :=
  if n = 0 then [] else ["\x1b[" ++ toString n ++ "A"]

/-- One rendered line of the multi-select menu, exactly as interpolated in
`render`: pointer, checkbox, label, description. -/
def lineFor (st : SelState) (i : Nat) (opt : Opt) : String :=
  let isSelected := (i : Int) ∈ st.selected
  let isCursor := (i : Int) = st.cursor
  let checkbox := if isSelected then "\x1b[32m◉\x1b[0m" else "\x1b[2m◯\x1b[0m"
  let pointer := if isCursor then "\x1b[36m❯\x1b[0m" else " "
  let label := if isCursor then "\x1b[1m" ++ opt.name ++ "\x1b[0m" else opt.name
  let desc := "\x1b[2m- " ++ opt.desc ++ "\x1b[0m"
  pointer ++ " " ++ checkbox ++ " " ++ label ++ " " ++ desc ++ "\n"

/-- The chunks written by one call of `render()`: `moveCursor(0, -N)`,
then per option `clearLine(0)` (`ESC [ 2 K`) and the line text. -/
def renderOut (options : List Opt) (st : SelState) : List String :=
  moveCursorUp options.length ++
    (options.enum.map fun p => ["\x1b[2K", lineFor st p.1 p.2]).flatten

/-- Observable terminal/session state: chunks written to stdout in order,
the raw-mode flag of stdin, and whether the `data` listener is attached. -/
structure Sys where
  out : List String
  rawMode : Bool
  listening : Bool
deriving DecidableEq

/-- `stdout.write(s)`. -/
def write (sys : Sys) (s : String) : Sys :=
  { sys with out := sys.out ++ [s] }

/-- A sequence of `stdout.write`s. -/
def writeAll (sys : Sys) (ss : List String) : Sys :=
  { sys with out := sys.out ++ ss }

/-- `"\n".repeat(n)`. -/
def newlines (n : Nat) : String :=
  String.mk (List.replicate n '\n')

/-- The state `multiselect` builds before listening:
`let cursor = 0; const selected = new Set([0]);`. -/
def initSelState : SelState :=
  { cursor := 0, selected := [0] }

/-- The terminal state after `multiselect`'s setup: hide the cursor
(`ESC [ ? 2 5 l`), pad `options.length` newlines, run the initial
`render()`, then `setRawMode(true)` and attach the `data` handler. -/
def msInitSys (options : List Opt) : Sys :=
  { out := ["\x1b[?25l", newlines options.length] ++ renderOut options initSelState
    rawMode := true
    listening := true }

/-- `options[i].key`: `some` of the key when `i` is a valid index, `none`
when `options[i]` is `undefined` (reading `.key` then throws). -/
def getKey (options : List Opt) (i : Int) : Option String :=
  if h : 0 ≤ i ∧ i.toNat < options.length then
    some (options.get ⟨i.toNat, h.2⟩).key
  else none

/-- `Array.from(selected).map((i) => options[i].key)`: the projection of
the selected indices, in the set's insertion order, onto their `key`
fields; `none` models the `TypeError` on an out-of-range index. -/
def enterResult (options : List Opt) : List Int → Option (List String)
  | [] => some []
  | i :: rest =>
    match getKey options i, enterResult options rest with
    | some k, some ks => some (k :: ks)
    | _, _ => none

/-- Outcome of feeding key chunks to `multiselect`'s handler: still
listening (`cont`), `process.exit(code)`, a resolved value, or an
uncaught `TypeError` (`crashed`). -/
inductive MSOut where
  | cont (st : SelState)
  | exited (code : Nat)
  | resolved (v : List String)
  | crashed
deriving DecidableEq

/-- One firing of `multiselect`'s `handleKey` with chunk `k`:
`"\u0003"` writes `ESC [ ? 2 5 h` and exits with status 1 (raw mode is
left as is); `"\r"` removes the listener, leaves raw mode, pauses, shows
the cursor, then evaluates the selection projection (which may throw);
`Up`/`Down`/`Space` update the state and re-render; anything else is a
no-op. -/
def msStep (options : List Opt) (st : SelState) (sys : Sys) (k : String) : MSOut × Sys :=
  if k = "\x03" then
    (MSOut.exited 1, write sys "\x1b[?25h")
  else if k = "\r" then
    let sys' := write { sys with rawMode := false, listening := false } "\x1b[?25h"
    match enterResult options st.selected with
    | some v => (MSOut.resolved v, sys')
    | none => (MSOut.crashed, sys')
  else if k = "\x1b[A" ∨ k = "\x1b[B" ∨ k = " " then
    let st' := pureStep options st k
    (MSOut.cont st', writeAll sys (renderOut options st'))
  else (MSOut.cont st, sys)

/-- Feeding a list of key chunks to `multiselect`'s handler in order;
after a terminal outcome the listener is gone (or the process has
exited), so remaining chunks are not handled. -/
def msLoop (options : List Opt) : SelState → Sys → List String → MSOut × Sys
  | st, sys, [] => (MSOut.cont st, sys)
  | st, sys, k :: ks =>
    match msStep options st sys k with
    | (MSOut.cont st', sys') => msLoop options st' sys' ks
    | r => r

/-- A whole `multiselect(options)` interaction over a chunk sequence. -/
def msRun (options : List Opt) (keys : List String) : MSOut × Sys :=
  msLoop options initSelState (msInitSys options) keys

/-- `key.toLowerCase()` on the chunk strings compared by `confirm`,
character by character. -/
def strLower (s : String) : String :=
  String.mk (s.data.map Char.toLower)

/-- Outcome of feeding key chunks to `confirm`'s handler. -/
inductive CFOut where
  | undecided
  | exited (code : Nat)
  | resolved (b : Bool)
deriving DecidableEq

/-- `confirm`'s `cleanup`: remove the listener, `setRawMode(false)`,
pause (the resolve itself carries the boolean in `CFOut`). -/
def cleanup (sys : Sys) : Sys :=
  { sys with rawMode := false, listening := false }

/-- The terminal state after `confirm`'s setup: write the question with
the dim `(Y/n)` hint, `setRawMode(true)`, attach the handler.  `confirm`
never hides the cursor. -/
def cfInitSys (question : String) : Sys :=
  { out := [question ++ " \x1b[2m(Y/n)\x1b[0m "]
    rawMode := true
    listening := true }

/-- One firing of `confirm`'s `handleKey`: `"\u0003"` exits with status 1
writing nothing; `"\r"` or a chunk lowercasing to `"y"` echoes the green
`Yes` and resolves `true`; a chunk lowercasing to `"n"` echoes the red
`No` and resolves `false`; anything else is a no-op. -/
def cfStep (sys : Sys) (k : String) : CFOut × Sys :=
  if k = "\x03" then (CFOut.exited 1, sys)
  else if k = "\r" ∨ strLower k = "y" then
    (CFOut.resolved true, cleanup (write sys "\x1b[32mYes\x1b[0m\n"))
  else if strLower k = "n" then
    (CFOut.resolved false, cleanup (write sys "\x1b[31mNo\x1b[0m\n"))
  else (CFOut.undecided, sys)

/-- Feeding a list of key chunks to `confirm`'s handler in order. -/
def cfLoop : Sys → List String → CFOut × Sys
  | sys, [] => (CFOut.undecided, sys)
  | sys, k :: ks =>
    match cfStep sys k with
    | (CFOut.undecided, sys') => cfLoop sys' ks
    | r => r

/-- A whole `confirm(question)` interaction over a chunk sequence. -/
def cfRun (question : String) (keys : List String) : CFOut × Sys :=
  cfLoop (cfInitSys question) keys

/-- Spec-side definition, following the spec's words: "the output is the
ordered sequence of `key` fields for indices in `selected`, in ascending
index order".  Used to compare with the source's `enterResult`. -/
def specAscendingKeys (options : List Opt) (sel : List Int) : List String :=
  (options.enum.filter fun p => (p.1 : Int) ∈ sel).map fun p => p.2.key

/-- Concrete options used by witnesses and counterexamples. -/
def optA : Opt := ⟨"A", "A", "option a"⟩

def optB : Opt := ⟨"B", "B", "option b"⟩

def optC : Opt := ⟨"C", "C", "option c"⟩

def opts3 : List Opt := [optA, optB, optC]

def opts1 : List Opt := [optA]

/-! ### Helper lemmas about the cursor ring -/

lemma upCursor_bounds {n : Nat} {c : Int} (hn : 1 ≤ n) (h0 : 0 ≤ c)
    (h1 : c < (n : Int)) : 0 ≤ upCursor n c ∧ upCursor n c < (n : Int) := by
  unfold upCursor
  split <;> omega

lemma downCursor_bounds {n : Nat} {c : Int} (hn : 1 ≤ n) (h0 : 0 ≤ c)
    (h1 : c < (n : Int)) : 0 ≤ downCursor n c ∧ downCursor n c < (n : Int) := by
  unfold downCursor
  split <;> omega

lemma up_eq_mod {n : Nat} {c : Int} (hn : 1 ≤ n) (h0 : 0 ≤ c)
    (h1 : c < (n : Int)) : upCursor n c = (c - 1 + n) % n := by
  unfold upCursor
  split
  · rw [Int.add_emod_self, Int.emod_eq_of_lt (by omega) (by omega)]
  · have hc : c = 0 := by omega
    subst hc
    rw [show (0 : Int) - 1 + n = (n : Int) - 1 by ring,
      Int.emod_eq_of_lt (by omega) (by omega)]

lemma down_eq_mod {n : Nat} {c : Int} (hn : 1 ≤ n) (h0 : 0 ≤ c)
    (h1 : c < (n : Int)) : downCursor n c = (c + 1) % n := by
  unfold downCursor
  split
  · rw [Int.emod_eq_of_lt (by omega) (by omega)]
  · have hc : c = (n : Int) - 1 := by omega
    subst hc
    rw [show (n : Int) - 1 + 1 = (n : Int) by ring, Int.emod_self]

lemma downCursor_iterate {n : Nat} {c : Int} (hn : 1 ≤ n) (h0 : 0 ≤ c)
    (h1 : c < (n : Int)) (k : Nat) :
    (downCursor n)^[k] c = (c + k) % n := by
  induction k with
  | zero =>
    simpa using (Int.emod_eq_of_lt h0 h1).symm
  | succ k ih =>
    rw [Function.iterate_succ_apply', ih,
      down_eq_mod hn (Int.emod_nonneg _ (by omega)) (Int.emod_lt_of_pos _ (by omega)),
      Int.emod_add_emod]
    push_cast
    ring_nf

/-! ### Helper lemmas about `pureStep` -/

lemma pureStep_cursor (options : List Opt) (st : SelState) (k : String)
    (hn : 1 ≤ options.length) (h0 : 0 ≤ st.cursor)
    (h1 : st.cursor < (options.length : Int)) :
    0 ≤ (pureStep options st k).cursor ∧
      (pureStep options st k).cursor < (options.length : Int) := by
  unfold pureStep
  split
  · exact upCursor_bounds hn h0 h1
  · split
    · exact downCursor_bounds hn h0 h1
    · split
      · exact ⟨h0, h1⟩
      · exact ⟨h0, h1⟩

lemma mem_setToggle {s : List Int} {x i : Int} (h : i ∈ setToggle s x) :
    i ∈ s ∨ i = x := by
  unfold setToggle at h
  split at h
  · exact Or.inl (List.mem_of_mem_filter h)
  · rcases List.mem_append.1 h with h' | h'
    · exact Or.inl h'
    · exact Or.inr (List.mem_singleton.1 h')

/-- The state invariant of the multi-select machine: cursor in range and
every selected index in range. -/
def Inv (options : List Opt) (st : SelState) : Prop :=
  (0 ≤ st.cursor ∧ st.cursor < (options.length : Int)) ∧
    ∀ i ∈ st.selected, 0 ≤ i ∧ i < (options.length : Int)

lemma pureStep_inv {options : List Opt} {st : SelState} (k : String)
    (hn : 1 ≤ options.length) (h : Inv options st) :
    Inv options (pureStep options st k) := by
  obtain ⟨⟨h0, h1⟩, hsel⟩ := h
  refine ⟨pureStep_cursor options st k hn h0 h1, ?_⟩
  intro i hi
  unfold pureStep at hi
  split at hi
  · exact hsel i hi
  · split at hi
    · exact hsel i hi
    · split at hi
      · rcases mem_setToggle hi with h' | h'
        · exact hsel i h'
        · subst h'; exact ⟨h0, h1⟩
      · exact hsel i hi

lemma pureSteps_inv {options : List Opt} {st : SelState} (ks : List String)
    (hn : 1 ≤ options.length) (h : Inv options st) :
    Inv options (pureSteps options st ks) := by
  induction ks generalizing st with
  | nil => exact h
  | cons k ks ih => exact ih (pureStep_inv k hn h)

lemma initSelState_inv {options : List Opt} (hn : 1 ≤ options.length) :
    Inv options initSelState := by
  refine ⟨⟨?_, ?_⟩, ?_⟩
  · simp [initSelState]
  · simp only [initSelState]
    omega
  · intro i hi
    simp only [initSelState, List.mem_singleton] at hi
    subst hi
    constructor <;> omega

/-! ### C5 -/

/-- C5: for every option count `N ≥ 1` and every starting cursor in
`[0, N)`, after any finite sequence of `Up` and `Down` key events the
cursor still satisfies `0 ≤ cursor < N`. -/
theorem c5_cursor_in_bounds (options : List Opt) (st : SelState) (ks : List String)
    (hn : 1 ≤ options.length) (h0 : 0 ≤ st.cursor)
    (h1 : st.cursor < (options.length : Int))
    (hks : ∀ k ∈ ks, k = "\x1b[A" ∨ k = "\x1b[B") :
    0 ≤ (pureSteps options st ks).cursor ∧
      (pureSteps options st ks).cursor < (options.length : Int) := by
  induction ks generalizing st with
  | nil => exact ⟨h0, h1⟩
  | cons k ks ih =>
    have hb := pureStep_cursor options st k hn h0 h1
    exact ih (pureStep options st k) hb.1 hb.2 fun k' hk' => hks k' (List.mem_cons_of_mem _ hk')

theorem c5_witness :
    (1 ≤ opts3.length ∧ (0 : Int) ≤ initSelState.cursor ∧
        initSelState.cursor < (opts3.length : Int)) ∧
      0 ≤ (pureSteps opts3 initSelState ["\x1b[A", "\x1b[B", "\x1b[B"]).cursor ∧
        (pureSteps opts3 initSelState ["\x1b[A", "\x1b[B", "\x1b[B"]).cursor <
          (opts3.length : Int) :=
  ⟨by decide, c5_cursor_in_bounds opts3 initSelState ["\x1b[A", "\x1b[B", "\x1b[B"]
    (by decide) (by decide) (by decide) (by decide)⟩

/-! ### C6 -/

/-- C6: the code's conditional wrap-around `Up` transition equals
`(cursor - 1 + N) mod N` and its `Down` transition equals
`(cursor + 1) mod N`, for every `N ≥ 1` and every cursor in `[0, N)`. -/
theorem c6_ring_equivalence (n : Nat) (c : Int) (hn : 1 ≤ n) (h0 : 0 ≤ c)
    (h1 : c < (n : Int)) :
    upCursor n c = (c - 1 + n) % n ∧ downCursor n c = (c + 1) % n :=
  ⟨up_eq_mod hn h0 h1, down_eq_mod hn h0 h1⟩

theorem c6_witness :
    (1 ≤ 3 ∧ (0 : Int) ≤ 0 ∧ (0 : Int) < (3 : Nat)) ∧
      upCursor 3 0 = ((0 : Int) - 1 + (3 : Nat)) % (3 : Nat) ∧
        downCursor 3 0 = ((0 : Int) + 1) % (3 : Nat) :=
  ⟨by decide, c6_ring_equivalence 3 0 (by decide) (by decide) (by decide)⟩

/-! ### C7 -/

/-- C7: for every `N ≥ 1` and every starting cursor in `[0, N)`,
applying the code's `Down` transition `N` times returns the cursor to
its starting value. -/
theorem c7_down_full_cycle (n : Nat) (c : Int) (hn : 1 ≤ n) (h0 : 0 ≤ c)
    (h1 : c < (n : Int)) :
    (downCursor n)^[n] c = c := by
  rw [downCursor_iterate hn h0 h1, Int.add_emod_self, Int.emod_eq_of_lt h0 h1]

theorem c7_witness :
    (1 ≤ 3 ∧ (0 : Int) ≤ 1 ∧ (1 : Int) < (3 : Nat)) ∧ (downCursor 3)^[3] 1 = 1 :=
  ⟨by decide, c7_down_full_cycle 3 1 (by decide) (by decide) (by decide)⟩

/-! ### C8 -/

lemma mem_setToggle_twice (s : List Int) (c x : Int) :
    x ∈ setToggle (setToggle s c) c ↔ x ∈ s := by
  by_cases h : c ∈ s
  · have hinner : setToggle s c = s.filter (fun y => y ≠ c) := if_pos h
    have h2 : c ∉ s.filter (fun y => y ≠ c) := by simp
    have houter : setToggle (s.filter (fun y => y ≠ c)) c =
        s.filter (fun y => y ≠ c) ++ [c] := if_neg h2
    rw [hinner, houter]
    simp only [List.mem_append, List.mem_filter, List.mem_singleton,
      decide_eq_true_eq]
    constructor
    · rintro (⟨hx, _⟩ | rfl)
      · exact hx
      · exact h
    · intro hx
      by_cases hxc : x = c
      · exact Or.inr hxc
      · exact Or.inl ⟨hx, hxc⟩
  · have hinner : setToggle s c = s ++ [c] := if_neg h
    have h2 : c ∈ s ++ [c] := by simp
    have houter : setToggle (s ++ [c]) c =
        (s ++ [c]).filter (fun y => y ≠ c) := if_pos h2
    rw [hinner, houter]
    simp only [List.mem_filter, List.mem_append, List.mem_singleton,
      decide_eq_true_eq]
    constructor
    · rintro ⟨hx | rfl, hxc⟩
      · exact hx
      · exact absurd rfl hxc
    · intro hx
      exact ⟨Or.inl hx, fun hxc => h (hxc ▸ hx)⟩

/-! ### Loop-level helper lemmas -/

lemma msStep_cont (options : List Opt) (st : SelState) (sys : Sys) (k : String)
    (h1 : k ≠ "\x03") (h2 : k ≠ "\r") :
    ∃ sys', msStep options st sys k = (MSOut.cont (pureStep options st k), sys') ∧
      sys'.rawMode = sys.rawMode ∧ sys'.listening = sys.listening := by
  unfold msStep
  rw [if_neg h1, if_neg h2]
  split
  · exact ⟨_, rfl, rfl, rfl⟩
  · refine ⟨sys, ?_, rfl, rfl⟩
    rename_i hk
    push_neg at hk
    unfold pureStep
    rw [if_neg hk.1, if_neg hk.2.1, if_neg hk.2.2]

lemma msLoop_append (options : List Opt) (st : SelState) (sys : Sys)
    (ks₁ ks₂ : List String) :
    msLoop options st sys (ks₁ ++ ks₂) =
      match msLoop options st sys ks₁ with
      | (MSOut.cont st', sys') => msLoop options st' sys' ks₂
      | r => r := by
  induction ks₁ generalizing st sys with
  | nil => rfl
  | cons k ks ih =>
    simp only [List.cons_append, msLoop]
    rcases h : msStep options st sys k with ⟨o, sys'⟩
    cases o
    · exact ih _ _
    · rfl
    · rfl
    · rfl

lemma cfLoop_append (sys : Sys) (ks₁ ks₂ : List String) :
    cfLoop sys (ks₁ ++ ks₂) =
      match cfLoop sys ks₁ with
      | (CFOut.undecided, sys') => cfLoop sys' ks₂
      | r => r := by
  induction ks₁ generalizing sys with
  | nil => rfl
  | cons k ks ih =>
    simp only [List.cons_append, cfLoop]
    rcases h : cfStep sys k with ⟨o, sys'⟩
    cases o
    · exact ih _
    · rfl
    · rfl

lemma msLoop_enter (options : List Opt) (ks : List String) :
    ∀ (st : SelState) (sys : Sys) (v : List String), "\r" ∉ ks → "\x03" ∉ ks →
      enterResult options (pureSteps options st ks).selected = some v →
      (msLoop options st sys (ks ++ ["\r"])).1 = MSOut.resolved v := by
  induction ks with
  | nil =>
    intro st sys v _ _ hv
    simp only [pureSteps, List.foldl_nil] at hv
    simp [msLoop, msStep, hv]
  | cons k ks ih =>
    intro st sys v hr hi hv
    have hk3 : k ≠ "\x03" := by
      intro h
      exact hi (by simp [h])
    have hkr : k ≠ "\r" := by
      intro h
      exact hr (by simp [h])
    obtain ⟨sys', hstep, _, _⟩ := msStep_cont options st sys k hk3 hkr
    simp only [List.cons_append, msLoop, hstep]
    exact ih (pureStep options st k) sys' v (fun h => hr (List.mem_cons_of_mem _ h))
      (fun h => hi (List.mem_cons_of_mem _ h)) hv

lemma msLoop_release (options : List Opt) (ks : List String) :
    ∀ st sys, sys.rawMode = true → sys.listening = true →
      ((msLoop options st sys ks).1 = MSOut.exited 1 →
        (msLoop options st sys ks).2.rawMode = true) ∧
      (∀ v, (msLoop options st sys ks).1 = MSOut.resolved v →
        (msLoop options st sys ks).2.rawMode = false ∧
          (msLoop options st sys ks).2.listening = false ∧
          (msLoop options st sys ks).2.out.getLast? = some "\x1b[?25h") := by
  induction ks with
  | nil =>
    intro st sys hraw hlis
    constructor
    · intro h
      simp [msLoop] at h
    · intro v h
      simp [msLoop] at h
  | cons k ks ih =>
    intro st sys hraw hlis
    simp only [msLoop]
    by_cases h3 : k = "\x03"
    · subst h3
      constructor
      · intro _
        simp [msStep, write, hraw]
      · intro v hv
        simp [msStep] at hv
    · by_cases hrk : k = "\r"
      · subst hrk
        rcases he : enterResult options st.selected with _ | v'
        · constructor
          · intro h
            simp [msStep, he] at h
          · intro v hv
            simp [msStep, he] at hv
        · constructor
          · intro h
            simp [msStep, he] at h
          · intro v hv
            simp only [msStep, he] at hv ⊢
            refine ⟨by simp [write], by simp [write], ?_⟩
            simp only [write]
            exact List.getLast?_concat _
      · obtain ⟨sys', hstep, hr', hl'⟩ := msStep_cont options st sys k h3 hrk
        simp only [hstep]
        exact ih (pureStep options st k) sys' (hr'.trans hraw) (hl'.trans hlis)

lemma cfLoop_release (ks : List String) :
    ∀ sys, sys.rawMode = true → sys.listening = true →
      ((cfLoop sys ks).1 = CFOut.exited 1 → (cfLoop sys ks).2.rawMode = true) ∧
      (∀ b, (cfLoop sys ks).1 = CFOut.resolved b →
        (cfLoop sys ks).2.rawMode = false ∧ (cfLoop sys ks).2.listening = false) := by
  induction ks with
  | nil =>
    intro sys hraw hlis
    constructor
    · intro h
      simp [cfLoop] at h
    · intro b h
      simp [cfLoop] at h
  | cons k ks ih =>
    intro sys hraw hlis
    simp only [cfLoop]
    by_cases h3 : k = "\x03"
    · subst h3
      constructor
      · intro _
        simpa [cfStep] using hraw
      · intro b hb
        simp [cfStep] at hb
    · by_cases hy : k = "\r" ∨ strLower k = "y"
      · have hstep : cfStep sys k =
            (CFOut.resolved true, cleanup (write sys "\x1b[32mYes\x1b[0m\n")) := by
          unfold cfStep
          rw [if_neg h3, if_pos hy]
        simp [hstep, cleanup]
      · by_cases hn2 : strLower k = "n"
        · have hstep : cfStep sys k =
              (CFOut.resolved false, cleanup (write sys "\x1b[31mNo\x1b[0m\n")) := by
            unfold cfStep
            rw [if_neg h3, if_neg hy, if_pos hn2]
          simp [hstep, cleanup]
        · have hstep : cfStep sys k = (CFOut.undecided, sys) := by
            unfold cfStep
            rw [if_neg h3, if_neg hy, if_neg hn2]
          simp only [hstep]
          exact ih sys hraw hlis

lemma enterResult_isSome (options : List Opt) (sel : List Int)
    (h : ∀ i ∈ sel, 0 ≤ i ∧ i < (options.length : Int)) :
    ∃ v, enterResult options sel = some v := by
  induction sel with
  | nil => exact ⟨[], rfl⟩
  | cons i rest ih =>
    obtain ⟨hi0, hi1⟩ := h i (List.mem_cons_self i rest)
    obtain ⟨v, hv⟩ := ih fun j hj => h j (List.mem_cons_of_mem _ hj)
    have hk : ∃ kk, getKey options i = some kk := by
      unfold getKey
      rw [dif_pos ⟨hi0, by omega⟩]
      exact ⟨_, rfl⟩
    obtain ⟨kk, hk⟩ := hk
    exact ⟨kk :: v, by simp [enterResult, hk, hv]⟩

lemma msLoop_no_crash (options : List Opt) (ks : List String) :
    ∀ st sys, Inv options st → (msLoop options st sys ks).1 ≠ MSOut.crashed := by
  induction ks with
  | nil =>
    intro st sys _ h
    simp [msLoop] at h
  | cons k ks ih =>
    intro st sys hinv
    have hn : 1 ≤ options.length := by
      have := hinv.1
      omega
    simp only [msLoop]
    by_cases h3 : k = "\x03"
    · subst h3
      simp [msStep]
    · by_cases hrk : k = "\r"
      · subst hrk
        obtain ⟨v, hv⟩ := enterResult_isSome options st.selected hinv.2
        simp [msStep, hv]
      · obtain ⟨sys', hstep, _, _⟩ := msStep_cont options st sys k h3 hrk
        simp only [hstep]
        exact ih (pureStep options st k) sys' (pureStep_inv k hn hinv)

/-- C8: `Space` is an involution on the membership of the selected set:
for any state, pressing `Space` twice (the second press necessarily at
the same, unchanged cursor index) leaves the membership of every index
unchanged, where one `Space` adds the cursor index if absent and removes
it if present. -/
theorem c8_space_involution (options : List Opt) (st : SelState) (x : Int) :
    x ∈ (pureStep options (pureStep options st " ") " ").selected ↔
      x ∈ st.selected := by
  have hstep : ∀ s : SelState,
      pureStep options s " " = { s with selected := setToggle s.selected s.cursor } :=
    fun s => rfl
  rw [hstep, hstep]
  exact mem_setToggle_twice st.selected st.cursor x

/-! ### C1 -/

/-- C1 counterexample: with options `[A, B, C]`, toggling index 0 off,
then index 2 on, then index 0 on again leaves the selected set with
membership `{0, 2}` but insertion order `[2, 0]`; the spec's
ascending-index projection of that set is `["A", "C"]`, yet `Enter`
resolves `["C", "A"]`, so the resolved value is not the ascending-index
projection regardless of toggle order. -/
theorem c1_counterexample :
    (pureSteps opts3 initSelState
        [" ", "\x1b[B", "\x1b[B", " ", "\x1b[A", "\x1b[A", " "]).selected = [2, 0] ∧
      specAscendingKeys opts3 [2, 0] = ["A", "C"] ∧
      (msRun opts3 [" ", "\x1b[B", "\x1b[B", " ", "\x1b[A", "\x1b[A", " ", "\r"]).1 =
        MSOut.resolved ["C", "A"] ∧
      (["C", "A"] : List String) ≠ ["A", "C"] :=
  ⟨by decide, by decide, by decide, by decide⟩

/-- C1 amended: for the multi-select prompt over any option list and any
key sequence ending in `Enter` (and containing no earlier `Enter` or
`Interrupt`), the resolved value is the projection of the selected
indices onto their `Option.key` fields in the set's insertion order —
the order in which the indices were last added — not ascending index
order. -/
theorem c1_amended (options : List Opt) (ks : List String) (v : List String)
    (hr : "\r" ∉ ks) (hi : "\x03" ∉ ks)
    (hv : enterResult options (pureSteps options initSelState ks).selected = some v) :
    (msRun options (ks ++ ["\r"])).1 = MSOut.resolved v :=
  msLoop_enter options ks initSelState (msInitSys options) v hr hi hv

theorem c1_witness :
    (msRun opts3 ([" ", "\x1b[B", "\x1b[B", " ", "\x1b[A", "\x1b[A", " "] ++ ["\r"])).1 =
      MSOut.resolved ["C", "A"] :=
  c1_amended opts3 [" ", "\x1b[B", "\x1b[B", " ", "\x1b[A", "\x1b[A", " "] ["C", "A"]
    (by decide) (by decide) (by decide)

/-! ### C2 -/

/-- C2 (code bug): called with an empty option list, `multiselect` does
not resolve immediately — it hides the cursor, enters raw mode and
attaches the key listener anyway; since `selected` is initialised to
`{0}`, pressing `Enter` evaluates `options[0].key` on `undefined` and
the handler throws (modelled as `crashed`) instead of resolving an empty
selection. -/
theorem c2_empty_options_behavior :
    (msInitSys []).rawMode = true ∧ (msInitSys []).listening = true ∧
      (msRun [] ["\r"]).1 = MSOut.crashed :=
  ⟨rfl, rfl, by decide⟩

/-! ### C3 -/

/-- C3 counterexample: an `Interrupt` during the `confirm` prompt exits
with status 1 without ever emitting the cursor-restore sequence
`ESC [ ? 2 5 h` — the last output is still the question prompt — so the
restore sequence is not the last terminal-control output for either
prompt. -/
theorem c3_counterexample :
    (cfRun "Q" ["\x03"]).1 = CFOut.exited 1 ∧
      "\x1b[?25h" ∉ (cfRun "Q" ["\x03"]).2.out :=
  ⟨by decide, by decide⟩

/-- C3 amended: an `Interrupt` while the multi-select prompt is still
pending makes `ESC [ ? 2 5 h` the last output emitted before the process
exits with status 1; an `Interrupt` while the confirm prompt is still
pending exits with status 1 emitting nothing further (the confirm prompt
never hides the cursor, and no restore sequence is written). -/
theorem c3_amended (options : List Opt) (st st' : SelState)
    (sys sys' sys₂ sys₂' : Sys) (ks ks₂ : List String)
    (hms : msLoop options st sys ks = (MSOut.cont st', sys'))
    (hcf : cfLoop sys₂ ks₂ = (CFOut.undecided, sys₂')) :
    (msLoop options st sys (ks ++ ["\x03"])).1 = MSOut.exited 1 ∧
      (msLoop options st sys (ks ++ ["\x03"])).2.out.getLast? = some "\x1b[?25h" ∧
      (cfLoop sys₂ (ks₂ ++ ["\x03"])).1 = CFOut.exited 1 ∧
      (cfLoop sys₂ (ks₂ ++ ["\x03"])).2.out = sys₂'.out := by
  have h1 : msLoop options st sys (ks ++ ["\x03"]) =
      (MSOut.exited 1, write sys' "\x1b[?25h") := by
    rw [msLoop_append, hms]
    rfl
  have h2 : cfLoop sys₂ (ks₂ ++ ["\x03"]) = (CFOut.exited 1, sys₂') := by
    rw [cfLoop_append, hcf]
    rfl
  refine ⟨by rw [h1], ?_, by rw [h2], by rw [h2]⟩
  rw [h1]
  exact List.getLast?_concat _

theorem c3_witness :
    (msLoop opts3 initSelState (msInitSys opts3) ([] ++ ["\x03"])).1 = MSOut.exited 1 ∧
      (msLoop opts3 initSelState (msInitSys opts3) ([] ++ ["\x03"])).2.out.getLast? =
        some "\x1b[?25h" ∧
      (cfLoop (cfInitSys "Q") ([] ++ ["\x03"])).1 = CFOut.exited 1 ∧
      (cfLoop (cfInitSys "Q") ([] ++ ["\x03"])).2.out = (cfInitSys "Q").out :=
  c3_amended opts3 initSelState initSelState (msInitSys opts3) (msInitSys opts3)
    (cfInitSys "Q") (cfInitSys "Q") [] [] rfl rfl

/-! ### C4 -/

/-- C4 counterexample: an `Interrupt` during `multiselect` terminates the
process while raw mode is still enabled — `setRawMode(false)` is never
called on that path — so release is not guaranteed on every exit path. -/
theorem c4_counterexample :
    (msRun opts1 ["\x03"]).1 = MSOut.exited 1 ∧
      (msRun opts1 ["\x03"]).2.rawMode = true :=
  ⟨by decide, by decide⟩

/-- C4 amended: the terminal session is released exactly once and only on
the normal completion path: when a prompt resolves, raw mode is off, the
key listener is removed, and for the multi-select prompt the
cursor-restore sequence is the last write; when either prompt is aborted
by `Interrupt`, the process exits with raw mode still enabled. -/
theorem c4_amended (options : List Opt) (ks : List String) (q : String) :
    ((msRun options ks).1 = MSOut.exited 1 → (msRun options ks).2.rawMode = true) ∧
      (∀ v, (msRun options ks).1 = MSOut.resolved v →
        (msRun options ks).2.rawMode = false ∧
          (msRun options ks).2.listening = false ∧
          (msRun options ks).2.out.getLast? = some "\x1b[?25h") ∧
      ((cfRun q ks).1 = CFOut.exited 1 → (cfRun q ks).2.rawMode = true) ∧
      (∀ b, (cfRun q ks).1 = CFOut.resolved b →
        (cfRun q ks).2.rawMode = false ∧ (cfRun q ks).2.listening = false) := by
  have hms := msLoop_release options ks initSelState (msInitSys options) rfl rfl
  have hcf := cfLoop_release ks (cfInitSys q) rfl rfl
  exact ⟨hms.1, hms.2, hcf.1, hcf.2⟩

theorem c4_witness :
    (msRun opts1 ["\x03"]).2.rawMode = true ∧
      (msRun opts1 ["\r"]).2.rawMode = false ∧
      (cfRun "Q" ["n"]).2.rawMode = false :=
  ⟨(c4_amended opts1 ["\x03"] "Q").1 (by decide),
    ((c4_amended opts1 ["\r"] "Q").2.1 ["A"] (by decide)).1,
    ((c4_amended opts1 ["n"] "Q").2.2.2 false (by decide)).1⟩

/-! ### C9 -/

/-- C9: the confirm prompt resolves to yes on `Enter` or `y`/`Y`,
resolves to no on `n`/`N`, and leaves every other key as a no-op
remaining undecided; in particular `Enter` alone yields yes, `n` yields
no, and `x` followed by `y` yields yes. -/
theorem c9_confirm_semantics (q : String) :
    (cfRun q ["\r"]).1 = CFOut.resolved true ∧
      (cfRun q ["y"]).1 = CFOut.resolved true ∧
      (cfRun q ["Y"]).1 = CFOut.resolved true ∧
      (cfRun q ["n"]).1 = CFOut.resolved false ∧
      (cfRun q ["N"]).1 = CFOut.resolved false ∧
      (cfRun q ["x", "y"]).1 = CFOut.resolved true ∧
      ∀ sys k, k ≠ "\x03" → k ≠ "\r" → strLower k ≠ "y" → strLower k ≠ "n" →
        cfStep sys k = (CFOut.undecided, sys) := by
  refine ⟨rfl, rfl, rfl, rfl, rfl, rfl, ?_⟩
  intro sys k h3 hr hy hn2
  have h2 : ¬(k = "\r" ∨ strLower k = "y") := fun h => h.elim hr hy
  unfold cfStep
  rw [if_neg h3, if_neg h2, if_neg hn2]

theorem c9_witness :
    cfStep (cfInitSys "Q") "x" = (CFOut.undecided, cfInitSys "Q") :=
  (c9_confirm_semantics "Q").2.2.2.2.2.2 (cfInitSys "Q") "x"
    (by decide) (by decide) (by decide) (by decide)

/-! ### C10 -/

/-- C10: for every option list with `N ≥ 1`, every element of the
selected set is an index in `[0, N)` after any sequence of key events —
the initial set `{0}` is in range and `Space` only toggles the in-range
cursor index — so the `options[i].key` lookup performed on `Enter` is
always defined and no run of the prompt can crash. -/
theorem c10_selected_in_range (options : List Opt) (ks : List String)
    (hn : 1 ≤ options.length) :
    (∀ i ∈ (pureSteps options initSelState ks).selected,
        0 ≤ i ∧ i < (options.length : Int)) ∧
      (∃ v, enterResult options (pureSteps options initSelState ks).selected = some v) ∧
      ∀ ks', (msRun options ks').1 ≠ MSOut.crashed := by
  have hinv := pureSteps_inv ks hn (initSelState_inv hn)
  refine ⟨hinv.2, enterResult_isSome options _ hinv.2, ?_⟩
  intro ks'
  exact msLoop_no_crash options ks' initSelState (msInitSys options) (initSelState_inv hn)

theorem c10_witness :
    (msRun opts3 ["\x1b[B", " ", "\r"]).1 ≠ MSOut.crashed :=
  (c10_selected_in_range opts3 [] (by decide)).2.2 ["\x1b[B", " ", "\r"]

end Boru
